import Mathlib

/-!
Verification of the TAURO extraction pipeline (spreadsheet cellmap →
timesheet events, report header, operational notes).

The Python sources are embedded shallowly:

* a sheet's cell grid (`sheet_name -> {cell_ref: value}` in the JSON cellmap)
  becomes an association list `Grid := List (String × CellValue)`, which keeps
  the insertion order that Python dict iteration exposes;
* cell values are either strings or integers (`CellValue`); Python truthiness
  and `str()` coercion are modelled by `pyTruthy` / `pyStr`;
* Python string operations (`strip`, `lower`, `in`, `startswith`, slicing)
  are modelled character-wise on `List Char` (ASCII classifiers), so that all
  definitions compute and are amenable to list induction;
* the `while True` row walk of `extract_events_from_section` is embedded with
  an explicit iteration bound `10 ^ maxKeyLen data`, which is proved to exceed
  every row number whose event cell can be present in the grid; the
  bound-insensitivity theorem is the termination claim;
* functions that can raise in Python (`int('')`, `ord` of a multi-character
  string) return `Option`, `none` marking the raised exception.
-/

namespace Tauro

/-! ### Cell values and grids -/

/-- A scalar cell value of the cellmap: a string or an integer.
The extraction modules only ever branch on `isinstance(value, str)`,
truthiness, and `str(value)`. -/
inductive CellValue where
  | vStr (s : String)
  | vInt (n : Int)
  deriving DecidableEq, Repr

/-- A sheet's cell grid: the `cell_ref ↦ value` mapping, as an association
list in Python dict insertion order. -/
abbrev Grid := List (String × CellValue)

/-- Python truthiness of a cell value (`bool(value)`). -/
def pyTruthy : CellValue → Bool
  | .vStr s => !(s == "")
  | .vInt n => !(n == 0)

/-- Characters removed by Python `str.strip()` with no arguments. -/
def pySpace (c : Char) : Bool :=
  c == ' ' || c == '\t' || c == '\n' || c == '\r' || c == '\x0b' || c == '\x0c'

/-- Python `str.strip()` on the character list. -/
def pyStripList (l : List Char) : List Char :=
  ((l.dropWhile pySpace).reverse.dropWhile pySpace).reverse

/-- Python `str.strip()`. -/
def pyStrip (s : String) : String :=
  (pyStripList s.toList).asString

/-- Python `sub in s` (substring containment) on character lists:
`isPrefixB` is prefix testing, `containsSub pat hay` tests whether `pat`
occurs contiguously inside `hay`. -/
def isPrefixB : List Char → List Char → Bool
  | [], _ => true
  | _ :: _, [] => false
  | a :: as, b :: bs => a == b && isPrefixB as bs

/-- Python `pat in hay` for strings, on character lists. -/
def containsSub : List Char → List Char → Bool
  | pat, [] => isPrefixB pat []
  | pat, hay@(_ :: t) => isPrefixB pat hay || containsSub pat t

/-- Python `s.startswith(pre)`. -/
def pyStartsWith (s pre : String) : Bool :=
  isPrefixB pre.toList s.toList

/-- Python `str(value)` for a cell value (`str` of an `int` is its decimal
form, with a leading minus sign when negative). -/
def pyStr : CellValue → String
  | .vStr s => s
  | .vInt n => if n < 0 then "-" ++ Nat.repr n.natAbs else Nat.repr n.natAbs

/-- Dictionary lookup: `data.get(ref)` / `ref in data`. -/
def lookup (data : Grid) (ref : String) : Option CellValue :=
  (data.find? (fun kv => kv.1 == ref)).map (·.2)

/-- `f"{col}{row}"`: the cell reference built from a column string and a row
number, as in `extract_events_from_section`. -/
def mkCellRef (col : String) (row : Nat) : String :=
  col ++ Nat.repr row

/-! ### Coordinate codec (`split_cell_reference`, both copies are identical) -/

/-- Decimal value of a digit list, as computed by Python `int()` on a string
of digits. -/
def digitsVal (l : List Char) : Nat :=
  l.foldl (fun a c => 10 * a + (c.toNat - 48)) 0

/-- `split_cell_reference` from `extract_timesheet_events.py` (the copy in
`extract_operational_notes.py` is identical): collect the alphabetic
characters as the column and the digit characters as the row.  `int('')`
raises `ValueError` when the reference holds no digit, modelled by `none`.
No other validation is performed. -/
def split_cell_reference (cell_ref : String) : Option (String × Nat) :=
  let letters := cell_ref.toList.filter (fun c => c.isAlpha)
  let digits := cell_ref.toList.filter (fun c => c.isDigit)
  if digits.isEmpty then none
  else some (letters.asString, digitsVal digits)

/-! ### Time and date normalization -/

/-- `f"{n:02d}"`: zero-pad to two characters. -/
def pad2 (n : Nat) : String :=
  if n < 10 then "0" ++ Nat.repr n else Nat.repr n

/-- Python `s.isdigit()` (ASCII digits; false on the empty string). -/
def isDigitStr (l : List Char) : Bool :=
  !l.isEmpty && l.all (fun c => c.isDigit)

/-- `format_time` from `extract_timesheet_events.py`: `None` passes through;
otherwise the value is coerced to a string and stripped; a string containing
a colon is returned as is; a purely numeric string is re-split into
hours/minutes according to its length (≤2, 3, or 4 digits); anything else is
returned stripped. -/
def format_time (time_value : Option CellValue) : Option String :=
  match time_value with
  | none => none
  | some v =>
    let t := pyStrip (pyStr v)
    if t.toList.contains ':' then some t
    else if isDigitStr t.toList then
      if t.toList.length ≤ 2 then some (pad2 (digitsVal t.toList) ++ ":00")
      else if t.toList.length = 3 then
        some (pad2 (digitsVal (t.toList.take 1)) ++ ":" ++ pad2 (digitsVal (t.toList.drop 1)))
      else if t.toList.length = 4 then
        some (pad2 (digitsVal (t.toList.take 2)) ++ ":" ++ pad2 (digitsVal (t.toList.drop 2)))
      else some t
    else some t

/-- `format_date` from `extract_timesheet_events.py`: strip, and when the
result contains a space keep only the part before the first space. -/
def format_date (date_value : Option CellValue) : Option String :=
  match date_value with
  | none => none
  | some v =>
    let d := pyStrip (pyStr v)
    if d.toList.contains ' ' then some (d.toList.takeWhile (fun c => !(c == ' '))).asString
    else some d

/-! ### Anchor locator (`find_timesheet_headers`) -/

/-- `value.strip().lower()` as applied to anchor label cells. -/
def cleanLow (s : String) : String :=
  ((pyStripList s.toList).map Char.toLower).asString

/-- One located timesheet header section (the dict appended by
`find_timesheet_headers`). -/
structure SectionHeader where
  format : String
  event_col : String
  date_col : String
  time_col : String
  start_row : Nat
  deriving DecidableEq, Repr

/-- Inner scan of the English pattern: walk all cells of the sheet, and for
string cells on the anchor row record the column of a `date` label and of a
`time` label (later matches overwrite earlier ones, as in the Python loop).
`none` marks the `ValueError` raised by `split_cell_reference` on a string
cell whose reference has no digits. -/
def innerScanEnglish (row : Nat) :
    List (String × CellValue) → Option String × Option String →
    Option (Option String × Option String)
  | [], acc => some acc
  | (ref, v) :: rest, acc =>
    match v with
    | .vStr s =>
      match split_cell_reference ref with
      | none => none
      | some (ocol, orow) =>
        if orow = row then
          if cleanLow s = "date" then innerScanEnglish row rest (some ocol, acc.2)
          else if cleanLow s = "time" then innerScanEnglish row rest (acc.1, some ocol)
          else innerScanEnglish row rest acc
        else innerScanEnglish row rest acc
    | _ => innerScanEnglish row rest acc

/-- Inner scan of the Spanish pattern: record the column of an `hrs`/`time`
label (the hours role) and of an `event` label on the anchor row. -/
def innerScanSpanish (row : Nat) :
    List (String × CellValue) → Option String × Option String →
    Option (Option String × Option String)
  | [], acc => some acc
  | (ref, v) :: rest, acc =>
    match v with
    | .vStr s =>
      match split_cell_reference ref with
      | none => none
      | some (ocol, orow) =>
        if orow = row then
          if cleanLow s = "hrs" ∨ cleanLow s = "time" then
            innerScanSpanish row rest (some ocol, acc.2)
          else if cleanLow s = "event" then innerScanSpanish row rest (acc.1, some ocol)
          else innerScanSpanish row rest acc
        else innerScanSpanish row rest acc
    | _ => innerScanSpanish row rest acc

/-- Processing of one cell by `find_timesheet_headers`: an `event` label
starts the English composite match, a `date` label in a reference starting
with `'A'` starts the Spanish one; a completed match appends one section. -/
def headerStep (data : Grid) (acc : List SectionHeader) (kv : String × CellValue) :
    Option (List SectionHeader) :=
  match kv.2 with
  | .vStr s =>
    let vc := cleanLow s
    if vc = "event" then
      match split_cell_reference kv.1 with
      | none => none
      | some (colE, row) =>
        match innerScanEnglish row data (none, none) with
        | none => none
        | some (some cd, some ct) =>
          some (acc ++ [⟨"english", colE, cd, ct, row + 1⟩])
        | some _ => some acc
    else if vc = "date" ∧ pyStartsWith kv.1 "A" then
      match split_cell_reference kv.1 with
      | none => none
      | some (colD, row) =>
        match innerScanSpanish row data (none, none) with
        | none => none
        | some (some ct, some ce) =>
          some (acc ++ [⟨"spanish", ce, colD, ct, row + 1⟩])
        | some _ => some acc
    else some acc
  | _ => some acc

/-- Outer loop of `find_timesheet_headers` over the sheet's cells. -/
def findHeadersGo (data : Grid) :
    List (String × CellValue) → List SectionHeader → Option (List SectionHeader)
  | [], acc => some acc
  | kv :: rest, acc =>
    match headerStep data acc kv with
    | none => none
    | some acc' => findHeadersGo data rest acc'

/-- `find_timesheet_headers` from `extract_timesheet_events.py`.  `none`
models the `ValueError` that `split_cell_reference` raises on a string cell
whose reference holds no digits. -/
def find_timesheet_headers (data : Grid) : Option (List SectionHeader) :=
  findHeadersGo data data []

/-! ### Section walker (`extract_events_from_section`) -/

/-- One extracted event row (the dict created per row; the `Sheet` and
`Section_Number` keys added later by the caller are omitted). -/
structure EventRecord where
  Event : String
  Date : Option String
  Time : Option String
  Section : String
  Row : Nat
  deriving DecidableEq, Repr

/-- The stop test of the row walk: `not event_value or (isinstance(event_value,
str) and not event_value.strip())`. -/
def stopValue (v : CellValue) : Bool :=
  !pyTruthy v ||
    (match v with
     | .vStr s => pyStrip s == ""
     | .vInt _ => false)

/-- The record built from the current row. -/
def mkEventRecord (data : Grid) (sec : SectionHeader) (row : Nat) (ev : CellValue) :
    EventRecord :=
  { Event := pyStrip (pyStr ev)
    Date := format_date (lookup data (mkCellRef sec.date_col row))
    Time := format_time (lookup data (mkCellRef sec.time_col row))
    Section := sec.format
    Row := row }

/-- The `while True` body of `extract_events_from_section`, with an explicit
iteration bound: stop when the event cell is absent, falsy, or a blank
string; otherwise emit the row's record and move one row down. -/
def goEvents (data : Grid) (sec : SectionHeader) : Nat → Nat → List EventRecord
  | 0, _ => []
  | fuel + 1, row =>
    match lookup data (mkCellRef sec.event_col row) with
    | none => []
    | some ev =>
      if stopValue ev then []
      else mkEventRecord data sec row ev :: goEvents data sec fuel (row + 1)

/-- Length of the longest cell reference in the grid. -/
def maxKeyLen (data : Grid) : Nat :=
  data.foldr (fun kv m => max kv.1.length m) 0

/-- `extract_events_from_section` from `extract_timesheet_events.py`.  The
Python loop is `while True`; the bound `10 ^ maxKeyLen data` exceeds every
row number whose event cell can occur among the grid's keys, so the walk
always reaches its stop condition first (see `goEvents_fuel_irrelevant`). -/
def extract_events_from_section (data : Grid) (sec : SectionHeader) : List EventRecord :=
  goEvents data sec (10 ^ maxKeyLen data) sec.start_row

/-- Event-cell liveness at a row: the cell is present and passes the walk's
continue test (truthy, and not a blank string). -/
def eventLive (data : Grid) (sec : SectionHeader) (row : Nat) : Bool :=
  match lookup data (mkCellRef sec.event_col row) with
  | none => false
  | some v => !stopValue v

/-- The spec's notion of a populated, non-blank event cell at a row: the
cell is present in the grid and is not a string that is blank after
trimming.  (This is weaker than the walk's actual continue test, which also
stops on falsy non-string values such as the number 0.) -/
def populatedNonBlank (data : Grid) (sec : SectionHeader) (row : Nat) : Bool :=
  match lookup data (mkCellRef sec.event_col row) with
  | none => false
  | some (.vStr s) => !(pyStrip s == "")
  | some (.vInt _) => true

/-! ### Category classifier (`BasicTimeSheetAnalyzer._categorize_events`) -/

/-- The ordered bilingual keyword table of `_categorize_events`
(`basic_analyzer.py`), in the Python dict's insertion order; the fallback
bucket `Otros` carries no keywords and is not listed. -/
def categoryPatterns : List (String × List String) :=
  [("Alije/Transferencia",
    ["barges", "barge", "cast off", "approach", "line on board", "all fast",
     "hoses connected", "alongside", "mooring", "unmoor", "berth", "departure",
     "first line", "last line", "ship to ship", "transfer",
     "barcazas", "barcaza", "atraque", "desatraque", "amarre", "desamarre",
     "aproximación", "acercamiento", "transferencia", "alije", "mangueras conectadas",
     "primera línea", "última línea", "buque a buque"]),
   ("Carga",
    ["loading", "load", "cargo loading", "start loading", "finish loading",
     "loading completed", "loading operation",
     "carga", "cargar", "cargando", "inicio carga", "fin carga",
     "carga completada", "operación de carga", "embarque"]),
   ("Descarga",
    ["discharge", "unload", "unloading", "cargo discharge", "discharge completed",
     "descarga", "descargar", "descargando", "descarga completada", "desembarque"]),
   ("Llegada/Salida",
    ["arrival", "arrive", "departure", "depart", "eta", "etd", "pilot on board",
     "pilot off", "tug", "tugboat", "escort", "anchor",
     "llegada", "llegar", "salida", "salir", "práctico a bordo", "práctico fuera",
     "remolcador", "escolta", "ancla", "fondeo"]),
   ("Muestreo",
    ["sample", "sampling", "samples taken", "sample collection", "laboratory sample",
     "muestra", "muestras", "muestreo", "toma de muestras", "recolección muestras",
     "muestra laboratorio"]),
   ("Inspección",
    ["inspection", "inspections", "survey", "check", "verification", "examine",
     "tank inspection", "cargo inspection", "safety inspection",
     "inspección", "inspecciones", "verificación", "revisión", "chequeo",
     "inspección tanques", "inspección carga", "inspección seguridad", "verificar"]),
   ("Operaciones de Tanque",
    ["tank", "tanks", "cargo tank", "pump", "pumping", "valve", "pipeline",
     "manifold", "cargo system", "tank cleaning", "tank preparation",
     "tanque", "tanques", "tanque carga", "bomba", "bombeo", "válvula",
     "tubería", "colector", "sistema carga", "limpieza tanque", "preparación tanque"]),
   ("Limpieza",
    ["cleaning", "wash", "clean", "tank cleaning", "cargo cleaning",
     "limpieza", "lavado", "limpiar", "limpieza tanque", "limpieza carga"]),
   ("Certificación",
    ["certificate", "certification", "cert", "document", "documentation",
     "certificado", "certificación", "documento", "documentación"])]

/-- The fixed ten-label output vocabulary of the classifier. -/
def categoryNames : List String :=
  ["Alije/Transferencia", "Carga", "Descarga", "Llegada/Salida", "Muestreo",
   "Inspección", "Operaciones de Tanque", "Limpieza", "Certificación", "Otros"]

/-- Whether one category's keyword set matches the (lowercased) text:
`any(keyword in event_text for keyword in keywords)`. -/
def matchesCategory (t : List Char) (p : String × List String) : Bool :=
  p.2.any (fun kw => containsSub kw.toList t)

/-- The per-event classification performed by `_categorize_events`: the text
is lowercased and the categories are tried in table order, the first match
winning; text matching none is classified `Otros`. -/
def categorize_event (text : String) : String :=
  let t := text.toList.map Char.toLower
  match categoryPatterns.find? (matchesCategory t) with
  | some p => p.1
  | none => "Otros"

/-! ### Generic labelled-dictionary helpers (Python dict assignment) -/

/-- Python `d[k] = v` on an association list: overwrite in place when the key
exists, append otherwise (dict insertion order is preserved). -/
def pySet {α : Type} (d : List (String × α)) (k : String) (v : α) : List (String × α) :=
  if d.any (fun p => p.1 == k) then d.map (fun p => if p.1 == k then (k, v) else p)
  else d ++ [(k, v)]

/-- Python `k in d`. -/
def pyHas {α : Type} (d : List (String × α)) (k : String) : Bool :=
  d.any (fun p => p.1 == k)

/-- Python `d.get(k)`. -/
def pyGet {α : Type} (d : List (String × α)) (k : String) : Option α :=
  (d.find? (fun p => p.1 == k)).map (·.2)

/-- The substring after the first colon: `s.split(':', 1)[1]` (empty when the
string holds no colon; callers only use it when a colon is present). -/
def afterFirstColon (s : String) : String :=
  (((s.toList.dropWhile (fun c => !(c == ':')))).drop 1).asString

/-! ### Numeric field parsing (`extract_pumping_data`) -/

/-- Value stored in the `pumping_data` dict: a parsed number or a raw string.
Numbers are modelled as rationals; every string matched by the source's
pattern `-?\d+[.,]?\d*` denotes one exactly. -/
inductive PumpVal where
  | num (q : Rat)
  | str (s : String)
  deriving DecidableEq, Repr

/-- Greedy tail of a number match starting at a digit: take the maximal digit
run, then at most one `.` or `,` separator followed by the maximal digit run,
exactly as the regex `\d+[.,]?\d*` consumes its input. -/
def greedyNum (l : List Char) : List Char :=
  let ds := l.takeWhile Char.isDigit
  match l.drop ds.length with
  | c :: rest => if c == '.' || c == ',' then ds ++ c :: rest.takeWhile Char.isDigit else ds
  | [] => ds

/-- `re.search(r'(-?\d+[.,]?\d*)', s)`: the leftmost match of a signed
decimal number, scanning positions left to right; a position matches when it
starts with a digit, or with `-` immediately followed by a digit. -/
def scanNumber : List Char → Option (List Char)
  | [] => none
  | c :: rest =>
    if c.isDigit then some (greedyNum (c :: rest))
    else if c == '-' then
      match rest with
      | d :: _ => if d.isDigit then some ('-' :: greedyNum rest) else scanNumber rest
      | [] => none
    else scanNumber rest

/-- Value of an unsigned match `\d+[.,]?\d*`: integer part plus fractional
part (`float(m.replace(',', '.'))`). -/
def ratOfUnsigned (l : List Char) : Rat :=
  let ds := l.takeWhile Char.isDigit
  let fs :=
    match l.drop ds.length with
    | _ :: t => t.takeWhile Char.isDigit
    | [] => []
  (digitsVal ds : Rat) + (digitsVal fs : Rat) / ((10 : Rat) ^ fs.length)

/-- Value of a signed match. -/
def ratOfMatch (l : List Char) : Rat :=
  match l with
  | '-' :: rest => - ratOfUnsigned rest
  | _ => ratOfUnsigned l

/-- The numeric branch of `extract_pumping_data` for `pumping_time` /
`pumping_rate` values (lines 213–220 of `extract_operational_notes.py`):
search the first signed decimal number and convert it.  When the pattern
finds no match, nothing is produced; the `except ValueError` fallback to the
raw string guards only the `float` conversion, which cannot fail on a string
matched by this pattern. -/
def pumpNumeric (s : String) : Option PumpVal :=
  (scanNumber s.toList).map (fun m => PumpVal.num (ratOfMatch m))

/-- `re.match(r'^-?\d+[.,]?\d*$', s)`: the whole string is a signed decimal
number (optional sign, a nonempty digit run, optionally one separator and a
digit run reaching the end). -/
def fullNumShape (l : List Char) : Bool :=
  let l' := match l with
    | '-' :: t => t
    | _ => l
  let ds := l'.takeWhile Char.isDigit
  !ds.isEmpty &&
    (match l'.drop ds.length with
     | [] => true
     | c :: t => (c == '.' || c == ',') && t.all Char.isDigit)

/-- The fallback parser of `extract_pumping_data`: `float(s.replace(',', '.'))`
applied when the whole (stripped) cell text matches the number pattern. -/
def fullSignedNum (l : List Char) : Option Rat :=
  if fullNumShape l then some (ratOfMatch l) else none

/-! ### `extract_pumping_data` (`extract_operational_notes.py`) -/

/-- The `find_notes_structure` result dict (only `start_row` is read by
`extract_pumping_data`). -/
structure NotesStructure where
  special_notes_found : Bool
  general_notes_found : Bool
  special_notes_col : Option String
  general_notes_col : Option String
  start_row : Option Nat
  deriving DecidableEq, Repr

/-- The field key/label table scanned below the `General Notes` header. -/
def fieldLabelPairs : List (String × String) :=
  [("pumping_time", "Pumping Time"), ("pumping_rate", "Pumping Rate"),
   ("last_cargo", "Last Cargo"), ("second_last", "Second Last"),
   ("third_last", "Third Last"), ("vessel_experience_factor", "Vessel Experience Factor")]

/-- The candidate columns of the labelled scan. -/
def pumpCols : List String :=
  ["G", "H", "I", "J", "K", "L", "M", "N", "O", "P"]

/-- Labelled scan at one cell: when the cell's text contains a field label,
read the cell one row below in the same column; `pumping_time` and
`pumping_rate` go through the numeric branch, the other fields store the
stripped text. -/
def pumpFieldsStep (sheet : Grid) (col : String) (currentRow : Nat)
    (d : List (String × PumpVal)) : List (String × PumpVal) :=
  match lookup sheet (mkCellRef col currentRow) with
  | none => d
  | some value =>
    if !pyTruthy value then d
    else
      let value_clean := pyStrip (pyStr value)
      fieldLabelPairs.foldl
        (fun d fp =>
          if containsSub fp.2.toList value_clean.toList then
            match lookup sheet (mkCellRef col (currentRow + 1)) with
            | none => d
            | some fv =>
              if !pyTruthy fv then d
              else
                let fvc := pyStrip (pyStr fv)
                if fp.1 == "pumping_time" || fp.1 == "pumping_rate" then
                  match pumpNumeric fvc with
                  | some v => pySet d fp.1 v
                  | none => d
                else pySet d fp.1 (PumpVal.str fvc)
          else d)
        d

/-- The labelled scan of `extract_pumping_data`: rows `start_row+1` to
`start_row+14` (`range(1, 15)`), columns `G`–`P`. -/
def pumpLabelScan (sheet : Grid) (startRow : Nat) : List (String × PumpVal) :=
  (List.range' 1 14).foldl
    (fun d off => pumpCols.foldl (fun d col => pumpFieldsStep sheet col (startRow + off) d) d)
    []

/-- The last-resort fallback: when `pumping_time` or `pumping_rate` is still
missing, scan every cell whose whole stripped text is a signed number and
assign the first value in `(-50, 0)` to `pumping_time` and the first value
below `-100` to `pumping_rate`. -/
def pumpFallback (sheet : Grid) (d : List (String × PumpVal)) : List (String × PumpVal) :=
  if !pyHas d "pumping_time" || !pyHas d "pumping_rate" then
    sheet.foldl
      (fun d kv =>
        if !pyTruthy kv.2 then d
        else
          match fullSignedNum (pyStrip (pyStr kv.2)).toList with
          | none => d
          | some q =>
            if !pyHas d "pumping_time" && decide ((-50 : Rat) < q ∧ q < 0) then
              pySet d "pumping_time" (PumpVal.num q)
            else if !pyHas d "pumping_rate" && decide (q < (-100 : Rat)) then
              pySet d "pumping_rate" (PumpVal.num q)
            else d)
      d
  else d

/-- `extract_pumping_data` from `extract_operational_notes.py`: nothing
without a structure or with a falsy `start_row`; otherwise the labelled scan
followed by the negative-number fallback. -/
def extract_pumping_data (sheet : Grid) (structOpt : Option NotesStructure) :
    List (String × PumpVal) :=
  match structOpt with
  | none => []
  | some st =>
    match st.start_row with
    | none => []
    | some r => if r == 0 then [] else pumpFallback sheet (pumpLabelScan sheet r)

/-! ### Timesheet header extraction (`extract_timesheet_header`,
`extract_operational_notes.py`) -/

/-- The field key/label table of the notes timesheet header. -/
def header_fields : List (String × String) :=
  [("vessel", "Vessel"), ("terminal", "Terminal"), ("location", "Location"),
   ("product", "Product"), ("date", "Date"), ("file_no", "File N")]

/-- The label strings (`header_fields.values()`), used to reject neighbor
cells that hold another label. -/
def headerFieldNames : List String :=
  header_fields.map (·.2)

/-- The labelled-inline strategy of `extract_timesheet_header` (lines
123–132): when the cell text contains the label and a colon, the candidate
is the stripped text after the first colon, accepted only if non-empty,
different from the label, and longer than one character. -/
def tsInlineValue (field_name : String) (value_clean : String) : Option String :=
  if containsSub field_name.toList value_clean.toList && value_clean.toList.contains ':' then
    let fv := pyStrip (afterFirstColon value_clean)
    if !(fv == "") && !(fv == field_name) && fv.length > 1 then some fv else none
  else none

/-- The candidate test shared by the adjacent-cell searches: truthy cell,
stripped text non-degenerate and not itself a field label. -/
def adjAccepts (field_name cand : String) : Bool :=
  !(cand == "") && !(cand == field_name) && cand.length > 1 &&
    !headerFieldNames.contains cand

/-- The generic adjacent-cell loop (lines 157–165): first acceptable
candidate wins and the loop breaks. -/
def adjLoop (sheet : Grid) (fp : String × String) :
    List String → List (String × String) → List (String × String)
  | [], hd => hd
  | ref :: rest, hd =>
    match lookup sheet ref with
    | some av0 =>
      if pyTruthy av0 then
        let av := pyStrip (pyStr av0)
        if adjAccepts fp.2 av then pySet hd fp.1 av else adjLoop sheet fp rest hd
      else adjLoop sheet fp rest hd
    | none => adjLoop sheet fp rest hd

/-- The adjacency phase of `extract_timesheet_header` (lines 135–165), for
one cell whose stripped text equals a field label: prefer column `D` when
the label sits in column `B`, otherwise try one, two, three columns right
and one row down.  `ord(col)` raises `TypeError` when the column is not a
single character, modelled by `none`. -/
def adjPhase (sheet : Grid) (col : String) (row : Nat) (value_clean : String) :
    List (String × String) → List (String × String) → Option (List (String × String))
  | [], hd => some hd
  | fp :: rest, hd =>
    if !pyHas hd fp.1 && value_clean == fp.2 then
      let bCase : Option (List (String × String)) :=
        if col == "B" then
          match lookup sheet (mkCellRef "D" row) with
          | some tv0 =>
            if pyTruthy tv0 then
              let tv := pyStrip (pyStr tv0)
              if adjAccepts fp.2 tv then some (pySet hd fp.1 tv) else none
            else none
          | none => none
        else none
      match bCase with
      | some hd' => adjPhase sheet col row value_clean rest hd'
      | none =>
        match col.toList with
        | [c] =>
          let adjacent :=
            [String.singleton (Char.ofNat (c.toNat + 1)) ++ Nat.repr row,
             String.singleton (Char.ofNat (c.toNat + 2)) ++ Nat.repr row,
             String.singleton (Char.ofNat (c.toNat + 3)) ++ Nat.repr row,
             col ++ Nat.repr (row + 1)]
          adjPhase sheet col row value_clean rest (adjLoop sheet fp adjacent hd)
        | _ => none
    else adjPhase sheet col row value_clean rest hd

/-- Processing of one cell by `extract_timesheet_header`: skip falsy or
non-string values and rows beyond 15; otherwise run the labelled-inline
phase over all fields, then the adjacency phase. -/
def thStep (sheet : Grid) (hd : List (String × String)) (kv : String × CellValue) :
    Option (List (String × String)) :=
  match kv.2 with
  | .vStr s =>
    if s == "" then some hd
    else
      match split_cell_reference kv.1 with
      | none => none
      | some (col, row) =>
        if row > 15 then some hd
        else
          let value_clean := pyStrip s
          let hd1 := header_fields.foldl
            (fun hd fp =>
              if pyHas hd fp.1 then hd
              else
                match tsInlineValue fp.2 value_clean with
                | some fv => pySet hd fp.1 fv
                | none => hd)
            hd
          adjPhase sheet col row value_clean header_fields hd1
  | _ => some hd

/-- Outer loop of `extract_timesheet_header`. -/
def thGo (sheet : Grid) :
    List (String × CellValue) → List (String × String) → Option (List (String × String))
  | [], hd => some hd
  | kv :: rest, hd =>
    match thStep sheet hd kv with
    | none => none
    | some hd' => thGo sheet rest hd'

/-- `extract_timesheet_header` from `extract_operational_notes.py`.  `none`
models the exceptions Python can raise on malformed references. -/
def extract_timesheet_header (sheet : Grid) : Option (List (String × String)) :=
  thGo sheet sheet []

/-! ### Report-header operational data (`extract_operational_data`,
`extract_report_header.py`) -/

/-- The field mapping of `extract_operational_data`. -/
def field_mapping : List (String × List String) :=
  [("file_number", ["File N°", "File No"]), ("terminal", ["Terminal"]),
   ("inspector", ["Inspector", "Surveyor"]), ("revised_by", ["Revised by"]),
   ("approved_by", ["Approved by"]), ("operation_date", ["Date of Operation completed"]),
   ("report_date", ["Date of Report Issuing"]), ("note", ["NOTE"])]

/-- Processing of one cell by `extract_operational_data`: for each field, the
first label such that the stripped text starts with `label:` sets the field
to the stripped text after the first colon — unconditionally, with no
degenerate-value rejection. -/
def opDataStep (hd : List (String × String)) (kv : String × CellValue) :
    List (String × String) :=
  match kv.2 with
  | .vStr s =>
    if s == "" then hd
    else
      let value_clean := pyStrip s
      field_mapping.foldl
        (fun hd fm =>
          match fm.2.find? (fun fname => pyStartsWith value_clean (fname ++ ":")) with
          | some _ => pySet hd fm.1 (pyStrip (afterFirstColon value_clean))
          | none => hd)
        hd
  | _ => hd

/-- `extract_operational_data` from `extract_report_header.py`. -/
def extract_operational_data (sheet : Grid) : List (String × String) :=
  sheet.foldl opDataStep []

/-! ### Role-set satisfaction predicates for header rows -/

/-- Some string cell of the sheet carries label `lab` (after strip+lower) in
a reference that parses to the given row. -/
def rowHasLabel (data : List (String × CellValue)) (row : Nat) (lab : String) : Prop :=
  ∃ ref s col, (ref, CellValue.vStr s) ∈ data ∧
    split_cell_reference ref = some (col, row) ∧ cleanLow s = lab

/-- The row fully satisfies the English role set: `event`, `date` and `time`
labels all on the row. -/
def englishRowOK (data : List (String × CellValue)) (row : Nat) : Prop :=
  rowHasLabel data row "event" ∧ rowHasLabel data row "date" ∧ rowHasLabel data row "time"

/-- The row fully satisfies the Spanish role set as implemented: a `date`
label in a reference starting with `'A'`, an `hrs` (or `time`) label for the
hours role, and an `event` label. -/
def spanishRowOK (data : List (String × CellValue)) (row : Nat) : Prop :=
  (∃ ref s col, (ref, CellValue.vStr s) ∈ data ∧
    split_cell_reference ref = some (col, row) ∧
    cleanLow s = "date" ∧ pyStartsWith ref "A" = true) ∧
  (rowHasLabel data row "hrs" ∨ rowHasLabel data row "time") ∧
  rowHasLabel data row "event"

/-- Soundness property of one emitted section: its header row (the row
before `start_row`) fully satisfies the role set of its own variant. -/
def sectionOK (data : List (String × CellValue)) (sec : SectionHeader) : Prop :=
  1 ≤ sec.start_row ∧
  ((sec.format = "english" ∧ englishRowOK data (sec.start_row - 1)) ∨
   (sec.format = "spanish" ∧ spanishRowOK data (sec.start_row - 1)))

/-! ### Facts about `Nat.repr` (decimal rendering of row numbers)

The cell references manipulated by the source are built with f-strings
(`f"{col}{row}"`), i.e. `col ++ Nat.repr row` here.  The lemmas below
characterise the decimal digits of `Nat.repr`: every character is a digit,
the rendered value reads back to the number, and the number is below
`10 ^ length`.  They are proved from the core definition
`Nat.toDigitsCore`. -/

theorem toDigitsCore_shift (f : Nat) :
    ∀ n ds, Nat.toDigitsCore 10 f n ds = Nat.toDigitsCore 10 f n [] ++ ds := by
  induction f with
  | zero => intro n ds; simp [Nat.toDigitsCore]
  | succ f ih =>
    intro n ds
    simp only [Nat.toDigitsCore]
    by_cases h : n / 10 = 0
    · simp [h]
    · simp only [h, if_false]
      rw [ih (n / 10) (Nat.digitChar (n % 10) :: ds), ih (n / 10) [Nat.digitChar (n % 10)]]
      simp

theorem toDigitsCore_fuel :
    ∀ n f, 0 < f → n < 10 ^ f → Nat.toDigitsCore 10 f n [] = Nat.toDigits 10 n := by
  intro n
  induction n using Nat.strong_induction_on with
  | _ n ih =>
    intro f hf hlt
    obtain ⟨f', rfl⟩ : ∃ f', f = f' + 1 := ⟨f - 1, by omega⟩
    rw [Nat.toDigits]
    simp only [Nat.toDigitsCore]
    by_cases h : n / 10 = 0
    · simp [h]
    · simp only [h, if_false]
      have hn10 : 10 ≤ n := by
        by_contra hc
        exact h (Nat.div_eq_of_lt (by omega))
      have hdivlt : n / 10 < n := Nat.div_lt_self (by omega) (by omega)
      have hf'pos : 0 < f' := by
        rcases Nat.eq_zero_or_pos f' with h0 | h0
        · subst h0; simp at hlt; omega
        · exact h0
      have hsmall : n / 10 < 10 ^ f' := by
        rw [Nat.div_lt_iff_lt_mul (by omega)]
        calc n < 10 ^ (f' + 1) := hlt
          _ = 10 ^ f' * 10 := by ring
      have hn_self : n / 10 < 10 ^ n := lt_of_lt_of_le hdivlt (Nat.le_of_lt (Nat.lt_pow_self (by omega) n))
      rw [toDigitsCore_shift, toDigitsCore_shift n (n / 10)]
      rw [ih (n / 10) hdivlt f' hf'pos hsmall, ih (n / 10) hdivlt n (by omega) hn_self]

theorem toDigits_unfold (n : Nat) :
    Nat.toDigits 10 n =
      if n < 10 then [Nat.digitChar n]
      else Nat.toDigits 10 (n / 10) ++ [Nat.digitChar (n % 10)] := by
  conv_lhs => rw [Nat.toDigits]
  simp only [Nat.toDigitsCore]
  by_cases h : n < 10
  · have h0 : n / 10 = 0 := Nat.div_eq_of_lt h
    simp [h0, h, Nat.mod_eq_of_lt h]
  · have h0 : ¬ n / 10 = 0 := by
      have : 1 ≤ n / 10 := (Nat.one_le_div_iff (by omega)).mpr (by omega)
      omega
    rw [if_neg h0, if_neg h, toDigitsCore_shift]
    congr 1
    exact toDigitsCore_fuel (n / 10) n (by omega)
      (lt_of_lt_of_le (Nat.div_lt_self (by omega) (by omega))
        (Nat.le_of_lt (Nat.lt_pow_self (by omega) n)))

theorem digitChar_isDigit {k : Nat} (hk : k < 10) : (Nat.digitChar k).isDigit = true := by
  interval_cases k <;> decide

theorem digitChar_not_isAlpha {k : Nat} (hk : k < 10) : (Nat.digitChar k).isAlpha = false := by
  interval_cases k <;> decide

theorem digitChar_val {k : Nat} (hk : k < 10) : (Nat.digitChar k).toNat - 48 = k := by
  interval_cases k <;> decide

theorem digitsVal_append_one (l : List Char) (c : Char) :
    digitsVal (l ++ [c]) = 10 * digitsVal l + (c.toNat - 48) := by
  simp [digitsVal, List.foldl_append]

theorem digitsVal_toDigits : ∀ n : Nat, digitsVal (Nat.toDigits 10 n) = n := by
  intro n
  induction n using Nat.strong_induction_on with
  | _ n ih =>
    rw [toDigits_unfold]
    by_cases h : n < 10
    · simp [h, digitsVal, digitChar_val h]
    · rw [if_neg h, digitsVal_append_one,
        ih (n / 10) (Nat.div_lt_self (by omega) (by omega)),
        digitChar_val (Nat.mod_lt n (by omega))]
      omega

theorem lt_pow_length_toDigits : ∀ n : Nat, n < 10 ^ (Nat.toDigits 10 n).length := by
  intro n
  induction n using Nat.strong_induction_on with
  | _ n ih =>
    rw [toDigits_unfold]
    by_cases h : n < 10
    · simp [h]
    · rw [if_neg h]
      have hrec := ih (n / 10) (Nat.div_lt_self (by omega) (by omega))
      have : n < 10 * 10 ^ (Nat.toDigits 10 (n / 10)).length := by
        have hdm := Nat.div_add_mod n 10
        have hmod : n % 10 < 10 := Nat.mod_lt n (by omega)
        omega
      simpa [List.length_append, pow_succ, Nat.mul_comm] using this

theorem toDigits_isDigit : ∀ n : Nat, ∀ c ∈ Nat.toDigits 10 n, c.isDigit = true := by
  intro n
  induction n using Nat.strong_induction_on with
  | _ n ih =>
    rw [toDigits_unfold]
    by_cases h : n < 10
    · simpa [h] using digitChar_isDigit h
    · rw [if_neg h]
      intro c hc
      rcases List.mem_append.mp hc with hm | hm
      · exact ih (n / 10) (Nat.div_lt_self (by omega) (by omega)) c hm
      · rcases List.mem_singleton.mp hm with rfl
        exact digitChar_isDigit (Nat.mod_lt n (by omega))

theorem toDigits_not_isAlpha : ∀ n : Nat, ∀ c ∈ Nat.toDigits 10 n, c.isAlpha = false := by
  intro n
  induction n using Nat.strong_induction_on with
  | _ n ih =>
    rw [toDigits_unfold]
    by_cases h : n < 10
    · simpa [h] using digitChar_not_isAlpha h
    · rw [if_neg h]
      intro c hc
      rcases List.mem_append.mp hc with hm | hm
      · exact ih (n / 10) (Nat.div_lt_self (by omega) (by omega)) c hm
      · rcases List.mem_singleton.mp hm with rfl
        exact digitChar_not_isAlpha (Nat.mod_lt n (by omega))

theorem repr_toList (n : Nat) : (Nat.repr n).toList = Nat.toDigits 10 n := rfl

theorem repr_length_eq (n : Nat) : (Nat.repr n).length = (Nat.toDigits 10 n).length := rfl

theorem lt_pow_repr_length (n : Nat) : n < 10 ^ (Nat.repr n).length := by
  rw [repr_length_eq]; exact lt_pow_length_toDigits n

theorem alpha_not_isDigit (c : Char) (h : c.isAlpha = true) : c.isDigit = false := by
  simp only [Char.isAlpha, Char.isUpper, Char.isLower, Char.isDigit, Bool.or_eq_true,
    Bool.and_eq_true, decide_eq_true_eq] at h
  apply Bool.and_eq_false_iff.mpr
  simp only [decide_eq_false_iff_not]
  rcases h with ⟨h1, _⟩ | ⟨h1, _⟩ <;>
    exact Or.inr (fun hc => absurd (UInt32.le_trans h1 hc) (by decide))

theorem toDigits_ne_nil {n : Nat} : Nat.toDigits 10 n ≠ [] := by
  intro h0
  have h := lt_pow_length_toDigits n
  rw [h0] at h
  simp at h
  rw [toDigits_unfold] at h0
  by_cases hlt : n < 10 <;> simp [hlt, h] at h0

/-! ## Claim C2 — `format_time` case analysis -/

/-- **C2, counterexample.**  The claim says a string already containing a
colon is returned unchanged.  `format_time` strips its input before the
colon test, so `" 09:15 "` comes back as `"09:15"`, not unchanged. -/
theorem format_time_colon_strips :
    format_time (some (CellValue.vStr " 09:15 ")) = some "09:15" ∧
    format_time (some (CellValue.vStr " 09:15 ")) ≠ some " 09:15 " := by
  decide

/-- **C2, amended.**  All cases of `format_time`, stated on the stripped
input: a stripped string containing a colon is returned (stripped but
otherwise unchanged); a purely numeric stripped string of length ≤ 2 becomes
a zero-padded hour with `":00"` appended; length 3 splits as 1-digit hour /
2-digit minute; length 4 splits as 2-digit hour / 2-digit minute; longer
numeric strings and non-numeric strings are returned stripped but otherwise
unchanged.  No hour/minute range validation appears in any branch. -/
theorem format_time_cases (s : String) :
    ((pyStrip s).toList.contains ':' = true →
      format_time (some (CellValue.vStr s)) = some (pyStrip s)) ∧
    ((pyStrip s).toList.contains ':' = false → isDigitStr (pyStrip s).toList = true →
      (pyStrip s).toList.length ≤ 2 →
      format_time (some (CellValue.vStr s)) =
        some (pad2 (digitsVal (pyStrip s).toList) ++ ":00")) ∧
    ((pyStrip s).toList.contains ':' = false → isDigitStr (pyStrip s).toList = true →
      (pyStrip s).toList.length = 3 →
      format_time (some (CellValue.vStr s)) =
        some (pad2 (digitsVal ((pyStrip s).toList.take 1)) ++ ":" ++
          pad2 (digitsVal ((pyStrip s).toList.drop 1)))) ∧
    ((pyStrip s).toList.contains ':' = false → isDigitStr (pyStrip s).toList = true →
      (pyStrip s).toList.length = 4 →
      format_time (some (CellValue.vStr s)) =
        some (pad2 (digitsVal ((pyStrip s).toList.take 2)) ++ ":" ++
          pad2 (digitsVal ((pyStrip s).toList.drop 2)))) ∧
    ((pyStrip s).toList.contains ':' = false → isDigitStr (pyStrip s).toList = true →
      5 ≤ (pyStrip s).toList.length →
      format_time (some (CellValue.vStr s)) = some (pyStrip s)) ∧
    ((pyStrip s).toList.contains ':' = false → isDigitStr (pyStrip s).toList = false →
      format_time (some (CellValue.vStr s)) = some (pyStrip s)) := by
  have hlen : (pyStrip s).toList.length = (pyStrip s).length := rfl
  refine ⟨?_, ?_, ?_, ?_, ?_, ?_⟩
  · intro h1
    have h1' : ':' ∈ (pyStrip s).data := by simpa using h1
    simp [format_time, pyStr, h1']
  · intro h1 h2 h3
    have h1' : ':' ∉ (pyStrip s).data := by simpa using h1
    rw [hlen] at h3
    have h2' : isDigitStr (pyStrip s).data = true := h2
    simp [format_time, pyStr, h1', h2', h3]
  · intro h1 h2 h3
    have h1' : ':' ∉ (pyStrip s).data := by simpa using h1
    rw [hlen] at h3
    have hn2 : ¬ (pyStrip s).length ≤ 2 := by omega
    have h2' : isDigitStr (pyStrip s).data = true := h2
    simp [format_time, pyStr, h1', h2', h3, hn2]
  · intro h1 h2 h3
    have h1' : ':' ∉ (pyStrip s).data := by simpa using h1
    rw [hlen] at h3
    have hn2 : ¬ (pyStrip s).length ≤ 2 := by omega
    have hn3 : ¬ (pyStrip s).length = 3 := by omega
    have h2' : isDigitStr (pyStrip s).data = true := h2
    simp [format_time, pyStr, h1', h2', h3, hn2, hn3]
  · intro h1 h2 h3
    have h1' : ':' ∉ (pyStrip s).data := by simpa using h1
    rw [hlen] at h3
    have hn2 : ¬ (pyStrip s).length ≤ 2 := by omega
    have hn3 : ¬ (pyStrip s).length = 3 := by omega
    have hn4 : ¬ (pyStrip s).length = 4 := by omega
    have h2' : isDigitStr (pyStrip s).data = true := h2
    simp [format_time, pyStr, h1', h2', h3, hn2, hn3, hn4]
  · intro h1 h2
    have h1' : ':' ∉ (pyStrip s).data := by simpa using h1
    have h2' : isDigitStr (pyStrip s).data = false := h2
    simp [format_time, pyStr, h1', h2']

/-- **C2, witness.**  The amended cases applied to the spec's own examples:
`"2130"` (length 4) and `"7"` (length ≤ 2). -/
theorem format_time_cases_witness :
    format_time (some (CellValue.vStr "2130")) = some "21:30" ∧
    format_time (some (CellValue.vStr "7")) = some "07:00" := by
  constructor
  · have h := (format_time_cases "2130").2.2.2.1 (by decide) (by decide) (by decide)
    rw [h]; decide
  · have h := (format_time_cases "7").2.1 (by decide) (by decide) (by decide)
    rw [h]; decide

/-! ## Claim C6 — `split_cell_reference` failure conditions -/

/-- **C6, counterexample.**  The claim says parsing fails when the
alphabetic part is empty or the row is not positive.  The code only fails
on `int('')`: `"123"` (no letters) and `"A0"` (row zero) both come back as
ordinary pairs. -/
theorem split_cell_reference_malformed_accepted :
    split_cell_reference "123" = some ("", 123) ∧
    split_cell_reference "A0" = some ("A", 0) := by
  decide

/-- **C6, amended.**  `split_cell_reference` fails exactly when the
reference holds no digit character (the `int('')` `ValueError`); an empty
alphabetic part or a zero row are returned as normal pairs, with no
validation. -/
theorem split_cell_reference_none_iff (s : String) :
    split_cell_reference s = none ↔ s.toList.filter (fun c => c.isDigit) = [] := by
  simp only [split_cell_reference]
  by_cases h : (s.toList.filter (fun c => c.isDigit)).isEmpty
  · rw [if_pos h]
    simp only [List.isEmpty_iff] at h
    exact ⟨fun _ => h, fun _ => rfl⟩
  · rw [if_neg h]
    simp only [List.isEmpty_iff] at h
    exact ⟨fun hc => by simp at hc, fun hc => absurd hc h⟩

/-! ## Claim C8 — coordinate round-trip -/

/-- **C8, theorem.**  For every single-letter column and positive row,
parsing `f"{col}{row}"` returns exactly that column and row: the rendered
row digits survive the digit filter, none of them is alphabetic, and their
value reads back to the row. -/
theorem split_cell_reference_roundtrip (c : Char) (hc : c.isAlpha = true)
    (n : Nat) (_hn : 0 < n) :
    split_cell_reference (String.singleton c ++ Nat.repr n) =
      some (String.singleton c, n) := by
  have hdata : (String.singleton c ++ Nat.repr n).toList = c :: Nat.toDigits 10 n := by
    show (String.singleton c ++ Nat.repr n).data = _
    rw [String.data_append]
    rfl
  have hfa : (c :: Nat.toDigits 10 n).filter (fun x => x.isAlpha) = [c] := by
    rw [List.filter_cons_of_pos (by simpa using hc)]
    simp only [List.cons.injEq, true_and]
    exact List.filter_eq_nil_iff.mpr
      (fun a ha => by simp [toDigits_not_isAlpha n a ha])
  have hfd : (c :: Nat.toDigits 10 n).filter (fun x => x.isDigit) = Nat.toDigits 10 n := by
    rw [List.filter_cons_of_neg (by simp [alpha_not_isDigit c hc])]
    exact List.filter_eq_self.mpr (fun a ha => by simp [toDigits_isDigit n a ha])
  have hne : (Nat.toDigits 10 n).isEmpty = false := by
    rcases hd : Nat.toDigits 10 n with _ | ⟨a, l⟩
    · exact absurd hd toDigits_ne_nil
    · rfl
  simp only [split_cell_reference, hdata, hfa, hfd, hne, Bool.false_eq_true, if_false,
    digitsVal_toDigits]
  rfl

/-- **C8, witness.**  The round-trip at `("B", 12)`. -/
theorem split_cell_reference_roundtrip_witness :
    split_cell_reference (String.singleton 'B' ++ Nat.repr 12) =
      some (String.singleton 'B', 12) :=
  split_cell_reference_roundtrip 'B' (by decide) 12 (by decide)

/-! ## Claim C4 — classifier totality and first-match priority -/

theorem isPrefixB_iff (p : List Char) : ∀ l, isPrefixB p l = true ↔ ∃ t, l = p ++ t := by
  induction p with
  | nil => intro l; simp [isPrefixB]
  | cons a as ih =>
    intro l
    cases l with
    | nil => simp [isPrefixB]
    | cons b bs =>
      simp only [isPrefixB, Bool.and_eq_true, beq_iff_eq, ih, List.cons_append,
        List.cons.injEq]
      constructor
      · rintro ⟨rfl, t, rfl⟩
        exact ⟨t, rfl, rfl⟩
      · rintro ⟨t, rfl, rfl⟩
        exact ⟨rfl, t, rfl⟩

theorem containsSub_iff (pat : List Char) :
    ∀ hay, containsSub pat hay = true ↔ ∃ l₁ l₂, hay = l₁ ++ pat ++ l₂ := by
  intro hay
  induction hay with
  | nil =>
    simp only [containsSub, isPrefixB_iff]
    constructor
    · rintro ⟨t, ht⟩
      exact ⟨[], t, by simpa using ht⟩
    · rintro ⟨l₁, l₂, h⟩
      have h' : l₁ ++ (pat ++ l₂) = [] := by simpa using h.symm
      rcases List.append_eq_nil.mp h' with ⟨rfl, h2⟩
      rcases List.append_eq_nil.mp h2 with ⟨rfl, rfl⟩
      exact ⟨[], by simp⟩
  | cons a t ih =>
    simp only [containsSub, Bool.or_eq_true, isPrefixB_iff, ih]
    constructor
    · rintro (⟨t2, ht⟩ | ⟨l₁, l₂, rfl⟩)
      · exact ⟨[], t2, by simpa using ht⟩
      · exact ⟨a :: l₁, l₂, rfl⟩
    · rintro ⟨l₁, l₂, h⟩
      cases l₁ with
      | nil => exact Or.inl ⟨l₂, by simpa using h⟩
      | cons x xs =>
        rw [List.cons_append, List.cons_append] at h
        rcases List.cons.injEq .. ▸ h with ⟨rfl, rfl⟩
        exact Or.inr ⟨xs, l₂, rfl⟩

/-- Substring containment is preserved by lowercasing when the pattern is
already lowercase. -/
theorem containsSub_toLower (pat : List Char) (hpat : pat.map Char.toLower = pat)
    (hay : List Char) (h : containsSub pat hay = true) :
    containsSub pat (hay.map Char.toLower) = true := by
  rcases (containsSub_iff pat hay).mp h with ⟨l₁, l₂, rfl⟩
  exact (containsSub_iff pat _).mpr ⟨l₁.map Char.toLower, l₂.map Char.toLower, by
    simp [hpat]⟩

theorem eq_false_imp_ne_true {b : Bool} (h : b = false) : ¬ b = true := by
  simp [h]

/-- `find?` returns the first satisfying element. -/
theorem find?_first {α : Type} (p : α → Bool) :
    ∀ (l : List α) (a : α), l.find? p = some a →
      ∃ l₁ l₂, l = l₁ ++ a :: l₂ ∧ ∀ x ∈ l₁, p x = false := by
  intro l
  induction l with
  | nil => intro a h; simp [List.find?] at h
  | cons b t ih =>
    intro a h
    by_cases hb : p b = true
    · rw [List.find?_cons_of_pos _ hb] at h
      rcases Option.some.injEq .. ▸ h with rfl
      exact ⟨[], t, rfl, by simp⟩
    · rw [List.find?_cons_of_neg _ (by simpa using hb)] at h
      obtain ⟨l₁, l₂, rfl, hall⟩ := ih a h
      refine ⟨b :: l₁, l₂, rfl, ?_⟩
      intro x hx
      rcases List.mem_cons.mp hx with rfl | hx'
      · simpa using hb
      · exact hall x hx'

/-- Every category name of the table is part of the fixed vocabulary. -/
theorem categoryPatterns_names :
    ∀ p ∈ categoryPatterns, p.1 ∈ categoryNames := by
  decide

/-- `categorize_event` unfolded. -/
theorem categorize_event_eq (s : String) :
    categorize_event s =
      match categoryPatterns.find? (matchesCategory (s.toList.map Char.toLower)) with
      | some p => p.1
      | none => "Otros" := rfl

/-- When some category matches, the classifier returns the name of the
first matching category of the table. -/
theorem categorize_first_match (s : String) (p : String × List String)
    (hp : p ∈ categoryPatterns)
    (hmatch : matchesCategory (s.toList.map Char.toLower) p = true) :
    ∃ l₁ l₂ q, categoryPatterns = l₁ ++ q :: l₂ ∧
      matchesCategory (s.toList.map Char.toLower) q = true ∧
      (∀ x ∈ l₁, matchesCategory (s.toList.map Char.toLower) x = false) ∧
      categorize_event s = q.1 := by
  have hne : categoryPatterns.find? (matchesCategory (s.toList.map Char.toLower)) ≠ none := by
    intro hnone
    exact List.find?_eq_none.mp hnone p hp hmatch
  rcases Option.ne_none_iff_exists'.mp hne with ⟨q, hq⟩
  obtain ⟨l₁, l₂, hdecomp, hfirst⟩ := find?_first _ _ _ hq
  refine ⟨l₁, l₂, q, hdecomp, List.find?_some hq, hfirst, ?_⟩
  rw [categorize_event_eq, hq]

/-- **C4, theorem.**  The classifier is total over the fixed ten-label
vocabulary, uses first-match priority over the table order (if any category
matches, the result is the name of the earliest matching one), sends
unmatched text to `Otros`, and classifies text containing both `tank` and
`barge` as `Alije/Transferencia` (the `barge` keyword of the first category
wins before `Operaciones de Tanque` is ever tried). -/
theorem categorize_event_spec (s : String) :
    categorize_event s ∈ categoryNames ∧
    ((∀ p ∈ categoryPatterns,
        matchesCategory (s.toList.map Char.toLower) p = false) →
      categorize_event s = "Otros") ∧
    (∀ p ∈ categoryPatterns,
      matchesCategory (s.toList.map Char.toLower) p = true →
      ∃ l₁ l₂ q, categoryPatterns = l₁ ++ q :: l₂ ∧
        matchesCategory (s.toList.map Char.toLower) q = true ∧
        (∀ x ∈ l₁, matchesCategory (s.toList.map Char.toLower) x = false) ∧
        categorize_event s = q.1) ∧
    (containsSub "tank".toList s.toList = true →
      containsSub "barge".toList s.toList = true →
      categorize_event s = "Alije/Transferencia") := by
  refine ⟨?_, ?_, ?_, ?_⟩
  · rw [categorize_event_eq]
    cases h : categoryPatterns.find? (matchesCategory (s.toList.map Char.toLower)) with
    | none => decide
    | some q => exact categoryPatterns_names q (List.mem_of_find?_eq_some h)
  · intro hall
    have hnone : categoryPatterns.find? (matchesCategory (s.toList.map Char.toLower)) = none :=
      List.find?_eq_none.mpr (fun x hx => eq_false_imp_ne_true (hall x hx))
    rw [categorize_event_eq, hnone]
  · exact fun p hp hm => categorize_first_match s p hp hm
  · intro _ hbarge
    have hb : containsSub "barge".toList (s.toList.map Char.toLower) = true :=
      containsSub_toLower _ (by decide) _ hbarge
    have hm : matchesCategory (s.toList.map Char.toLower) categoryPatterns.headI = true := by
      unfold matchesCategory
      exact List.any_eq_true.mpr ⟨"barge", by decide, hb⟩
    obtain ⟨l₁, l₂, q, hdecomp, _, hfirst, hres⟩ :=
      categorize_first_match s categoryPatterns.headI (by decide) hm
    cases l₁ with
    | nil =>
      have hq : q = categoryPatterns.headI := by
        have := congrArg List.headI hdecomp
        simpa using this.symm
      rw [hres, hq]
      decide
    | cons x xs =>
      exfalso
      have hx : x = categoryPatterns.headI := by
        have := congrArg List.headI hdecomp
        simpa using this.symm
      have hfx := hfirst x (List.mem_cons_self x xs)
      rw [hx, hm] at hfx
      simp at hfx

/-- **C4, witness.**  The priority clause applied to a text holding both
`tank` and `barge`. -/
theorem categorize_event_spec_witness :
    categorize_event "tank to barge transfer" = "Alije/Transferencia" :=
  (categorize_event_spec "tank to barge transfer").2.2.2 (by decide) (by decide)

/-! ## Claim C7 — labelled-inline degenerate-value rejection -/

/-- **C7, counterexample.**  The claim says both call sites of the
labelled-inline strategy reject a candidate of length ≤ 1.  The
report-header `extract_operational_data` has no such rejection: the cell
`"Terminal:"` sets the `terminal` field to the empty string. -/
theorem operational_data_no_rejection :
    extract_operational_data [("A1", CellValue.vStr "Terminal:")] = [("terminal", "")] ∧
    ("" : String).length ≤ 1 := by
  decide

/-- **C7, amended.**  The degenerate-value rejection (candidate equal to the
label, or of length ≤ 1) holds in the notes timesheet header
(`extract_timesheet_header`, whose inline strategy is `tsInlineValue`); the
report-header `extract_operational_data` sets the after-colon value
unconditionally. -/
theorem tsInlineValue_rejects (field_name value_clean : String)
    (h : pyStrip (afterFirstColon value_clean) = field_name ∨
      (pyStrip (afterFirstColon value_clean)).length ≤ 1) :
    tsInlineValue field_name value_clean = none := by
  rcases h with h | h
  · simp [tsInlineValue, h]
  · have h' : ¬ (pyStrip (afterFirstColon value_clean)).length > 1 := by omega
    simp [tsInlineValue, h']

/-- **C7, witness.**  Rejection at a candidate equal to the label and at a
one-character candidate. -/
theorem tsInlineValue_rejects_witness :
    tsInlineValue "Vessel" "Vessel:Vessel" = none ∧
    tsInlineValue "Vessel" "Vessel: X" = none := by
  constructor
  · exact tsInlineValue_rejects "Vessel" "Vessel:Vessel" (Or.inl (by decide))
  · exact tsInlineValue_rejects "Vessel" "Vessel: X" (Or.inr (by decide))

/-! ## Claim C5 — numeric pumping-field extraction -/

/-- **C5, counterexample.**  The claim says that when no number parses the
raw string is stored and the field is still set.  With `"N/A"` below a
`Pumping Time` label the regex search finds nothing, the numeric branch
stores nothing, the fallback finds no bare negative number, and the field is
not set at all. -/
theorem pumping_time_field_unset :
    extract_pumping_data
        [("G6", CellValue.vStr "Pumping Time"), ("G7", CellValue.vStr "N/A")]
        (some ⟨true, true, none, none, some 5⟩) = [] ∧
    pyHas (extract_pumping_data
        [("G6", CellValue.vStr "Pumping Time"), ("G7", CellValue.vStr "N/A")]
        (some ⟨true, true, none, none, some 5⟩)) "pumping_time" = false := by
  decide

theorem scanNumber_none_iff :
    ∀ l, scanNumber l = none ↔ l.all (fun c => !c.isDigit) = true := by
  intro l
  induction l with
  | nil => simp [scanNumber]
  | cons c rest ih =>
    by_cases hc : c.isDigit
    · simp [scanNumber, hc]
    · by_cases hm : c = '-'
      · subst hm
        cases rest with
        | nil => simp [scanNumber]
        | cons d rest2 =>
          by_cases hd : d.isDigit
          · simp [scanNumber, hd]
          · have hstep : scanNumber ('-' :: d :: rest2) = scanNumber (d :: rest2) := by
              simp [scanNumber, hd]
            rw [hstep, ih]
            simp [hd]
      · have hstep : scanNumber (c :: rest) = scanNumber rest := by
          simp [scanNumber, hc, hm]
        rw [hstep, ih]
        simp [hc]

/-- **C5, amended.**  The numeric branch for `pumping_time`/`pumping_rate`
never raises and never stores a raw string: it stores the first signed
decimal number as a number exactly when the value contains a digit, and
stores nothing when no number is found (the raw-string fallback guards only
the `float` conversion, which cannot fail on a matched string). -/
theorem pumpNumeric_spec (s : String) :
    (∀ v, pumpNumeric s = some v → ∃ q, v = PumpVal.num q) ∧
    (pumpNumeric s = none ↔ s.toList.all (fun c => !c.isDigit) = true) := by
  constructor
  · intro v hv
    rcases Option.map_eq_some'.mp hv with ⟨m, _, rfl⟩
    exact ⟨ratOfMatch m, rfl⟩
  · unfold pumpNumeric
    rw [Option.map_eq_none']
    exact scanNumber_none_iff s.toList

/-- **C5, witness.**  No number in `"N/A"` (nothing stored), a number in
`"12,5"` (a numeric value stored). -/
theorem pumpNumeric_spec_witness :
    pumpNumeric "N/A" = none ∧ ∃ q, pumpNumeric "12,5" = some (PumpVal.num q) := by
  constructor
  · exact (pumpNumeric_spec "N/A").2.mpr (by decide)
  · have h2 : pumpNumeric "12,5" ≠ none := by
      intro h
      have := (pumpNumeric_spec "12,5").2.mp h
      simp at this
    rcases Option.ne_none_iff_exists'.mp h2 with ⟨v, hv⟩
    rcases (pumpNumeric_spec "12,5").1 v hv with ⟨q, rfl⟩
    exact ⟨q, hv⟩

/-! ## Claims C3 and C9 — section-walk termination and row harvesting -/

theorem lookup_mem {data : Grid} {ref : String} {v : CellValue}
    (h : lookup data ref = some v) : (ref, v) ∈ data := by
  unfold lookup at h
  rcases Option.map_eq_some'.mp h with ⟨kv, hfind, hv⟩
  have hmem := List.mem_of_find?_eq_some hfind
  have hkey : kv.1 = ref := by
    have := List.find?_some hfind
    simpa [beq_iff_eq] using this
  have : kv = (ref, v) := by
    cases kv
    simp only at hkey hv
    simp [hkey, hv]
  rwa [this] at hmem

theorem maxKeyLen_mem {data : Grid} {ref : String} {v : CellValue}
    (h : (ref, v) ∈ data) : ref.length ≤ maxKeyLen data := by
  induction data with
  | nil => cases h
  | cons kv t ih =>
    rcases List.mem_cons.mp h with rfl | h'
    · simp [maxKeyLen]
    · have := ih h'
      simp only [maxKeyLen, List.foldr] at *
      omega

/-- A present event cell bounds the row: its reference embeds the decimal
digits of the row, so the row is below `10 ^ maxKeyLen`. -/
theorem present_row_lt {data : Grid} {col : String} {row : Nat} {v : CellValue}
    (h : lookup data (mkCellRef col row) = some v) :
    row < 10 ^ maxKeyLen data := by
  have hlen : (mkCellRef col row).length ≤ maxKeyLen data :=
    maxKeyLen_mem (lookup_mem h)
  have hkey : (Nat.repr row).length ≤ (mkCellRef col row).length := by
    unfold mkCellRef
    rw [String.length_append]
    omega
  calc row < 10 ^ (Nat.repr row).length := lt_pow_repr_length row
    _ ≤ 10 ^ maxKeyLen data := Nat.pow_le_pow_right (by omega) (by omega)

/-- The row walk is insensitive to its iteration bound once the bound covers
`10 ^ maxKeyLen` rows: past that point the event cell cannot be present and
the walk has stopped. -/
theorem goEvents_fuel_agree (data : Grid) (sec : SectionHeader) :
    ∀ fuelA fuelB row, 10 ^ maxKeyLen data ≤ row + fuelA →
      10 ^ maxKeyLen data ≤ row + fuelB →
      goEvents data sec fuelA row = goEvents data sec fuelB row := by
  intro fuelA
  induction fuelA with
  | zero =>
    intro fuelB row hA hB
    cases fuelB with
    | zero => rfl
    | succ fb =>
      show (goEvents data sec 0 row = goEvents data sec (fb + 1) row)
      cases hl : lookup data (mkCellRef sec.event_col row) with
      | none => simp [goEvents, hl]
      | some v => exact absurd (present_row_lt hl) (by omega)
  | succ fa ih =>
    intro fuelB row hA hB
    cases fuelB with
    | zero =>
      cases hl : lookup data (mkCellRef sec.event_col row) with
      | none => simp [goEvents, hl]
      | some v => exact absurd (present_row_lt hl) (by omega)
    | succ fb =>
      simp only [goEvents]
      cases hl : lookup data (mkCellRef sec.event_col row) with
      | none => rfl
      | some v =>
        by_cases hs : stopValue v = true
        · simp [hs]
        · simp only [hs, Bool.false_eq_true, if_false]
          rw [ih fb (row + 1) (by omega) (by omega)]

/-- **C9, theorem.**  Extraction always terminates: for every finite grid
and section descriptor, the walk's stop condition is reached at some row,
and the walk's value is independent of the iteration bound once it covers
the grid (`while True` in the source never loops forever); the anchor scan
is a structurally recursive pass over the grid and terminates by
construction. -/
theorem extraction_terminates (data : Grid) (sec : SectionHeader) :
    (∃ k, eventLive data sec (sec.start_row + k) = false) ∧
    (∀ fuel, 10 ^ maxKeyLen data ≤ sec.start_row + fuel →
      goEvents data sec fuel sec.start_row = extract_events_from_section data sec) := by
  constructor
  · refine ⟨10 ^ maxKeyLen data, ?_⟩
    unfold eventLive
    cases hl : lookup data (mkCellRef sec.event_col (sec.start_row + 10 ^ maxKeyLen data)) with
    | none => rfl
    | some v => exact absurd (present_row_lt hl) (by omega)
  · intro fuel hfuel
    unfold extract_events_from_section
    exact goEvents_fuel_agree data sec fuel (10 ^ maxKeyLen data) sec.start_row hfuel
      (by omega)

/-- **C9, witness.**  Bound-insensitivity at a concrete one-row grid. -/
theorem extraction_terminates_witness :
    goEvents [("B3", CellValue.vStr "x")] ⟨"english", "B", "A", "C", 3⟩ 250 3 =
      extract_events_from_section [("B3", CellValue.vStr "x")]
        ⟨"english", "B", "A", "C", 3⟩ :=
  (extraction_terminates _ _).2 250 (by decide)

/-- The walk over `k` live rows followed by a stopping row yields one record
per row, rows strictly ascending. -/
theorem goEvents_rows (data : Grid) (sec : SectionHeader) :
    ∀ k fuel row, k ≤ fuel →
      (∀ i, i < k → eventLive data sec (row + i) = true) →
      eventLive data sec (row + k) = false →
      (goEvents data sec fuel row).map (·.Row) = (List.range k).map (row + ·) := by
  intro k
  induction k with
  | zero =>
    intro fuel row _ _ hstop
    rw [Nat.add_zero] at hstop
    unfold eventLive at hstop
    cases fuel with
    | zero => rfl
    | succ f =>
      cases hl : lookup data (mkCellRef sec.event_col row) with
      | none => simp [goEvents, hl]
      | some v =>
        rw [hl] at hstop
        have hs : stopValue v = true := by simpa using hstop
        simp [goEvents, hl, hs]
  | succ k ih =>
    intro fuel row hk hlive hstop
    have h0 := hlive 0 (by omega)
    rw [Nat.add_zero] at h0
    unfold eventLive at h0
    cases hl : lookup data (mkCellRef sec.event_col row) with
    | none => rw [hl] at h0; cases h0
    | some v =>
      rw [hl] at h0
      have hs : stopValue v = false := by
        simpa using h0
      cases fuel with
      | zero => omega
      | succ f =>
        simp only [goEvents, hl, hs, Bool.false_eq_true, if_false, List.map_cons]
        have htail := ih f (row + 1) (by omega)
          (fun i hi => by
            have := hlive (i + 1) (by omega)
            rwa [show row + (i + 1) = row + 1 + i by omega] at this)
          (by rwa [show row + 1 + k = row + (k + 1) by omega])
        rw [htail, List.range_succ_eq_map]
        simp only [List.map_cons, List.map_map, Nat.add_zero, List.cons.injEq]
        refine ⟨rfl, ?_⟩
        apply List.map_congr_left
        intro i _
        simp only [Function.comp_apply]
        omega

/-- **C3, counterexample.**  The claim's stop condition ("absent or blank
after trimming") is not exact: a present event cell holding the number `0`
is populated and is no blank string, yet `not event_value` stops the walk.
Rows 3–7 are populated non-blank and row 8 is absent, but the walk emits 0
records, not 5. -/
theorem zero_event_cell_stops :
    (∀ i, i < 5 →
      populatedNonBlank
        [("B3", CellValue.vInt 0), ("B4", CellValue.vStr "a"), ("B5", CellValue.vStr "b"),
         ("B6", CellValue.vStr "c"), ("B7", CellValue.vStr "d")]
        ⟨"english", "B", "A", "C", 3⟩ (3 + i) = true) ∧
    lookup
      [("B3", CellValue.vInt 0), ("B4", CellValue.vStr "a"), ("B5", CellValue.vStr "b"),
       ("B6", CellValue.vStr "c"), ("B7", CellValue.vStr "d")] (mkCellRef "B" 8) = none ∧
    extract_events_from_section
      [("B3", CellValue.vInt 0), ("B4", CellValue.vStr "a"), ("B5", CellValue.vStr "b"),
       ("B6", CellValue.vStr "c"), ("B7", CellValue.vStr "d")]
      ⟨"english", "B", "A", "C", 3⟩ = [] := by
  refine ⟨?_, by decide, by decide⟩
  decide

/-- **C3, amended.**  With the stop condition as implemented (absent, falsy
— e.g. numeric zero — or blank string after trimming): a section whose event
cells pass the continue test at rows `R..R+4` and fail it at `R+5` yields
exactly 5 records, one per row, rows strictly ascending. -/
theorem section_walk_five_rows (data : Grid) (sec : SectionHeader)
    (hlive : ∀ i, i < 5 → eventLive data sec (sec.start_row + i) = true)
    (hstop : eventLive data sec (sec.start_row + 5) = false) :
    (extract_events_from_section data sec).length = 5 ∧
    (extract_events_from_section data sec).map (·.Row) =
      (List.range 5).map (sec.start_row + ·) := by
  have h4 := hlive 4 (by omega)
  unfold eventLive at h4
  have hfuel : 5 ≤ 10 ^ maxKeyLen data := by
    cases hl : lookup data (mkCellRef sec.event_col (sec.start_row + 4)) with
    | none => rw [hl] at h4; cases h4
    | some v => have := present_row_lt hl; omega
  have hmain : (extract_events_from_section data sec).map (·.Row) =
      (List.range 5).map (sec.start_row + ·) := by
    unfold extract_events_from_section
    exact goEvents_rows data sec 5 _ _ hfuel hlive hstop
  refine ⟨?_, hmain⟩
  have hlen := congrArg List.length hmain
  simpa using hlen

/-- **C3, witness.**  Five populated rows starting at row 3, absent at
row 8: records at rows 3,4,5,6,7. -/
theorem section_walk_five_rows_witness :
    (extract_events_from_section
      [("B3", CellValue.vStr "e1"), ("B4", CellValue.vStr "e2"), ("B5", CellValue.vStr "e3"),
       ("B6", CellValue.vStr "e4"), ("B7", CellValue.vStr "e5")]
      ⟨"english", "B", "A", "C", 3⟩).map (·.Row) = [3, 4, 5, 6, 7] := by
  have h := (section_walk_five_rows
    [("B3", CellValue.vStr "e1"), ("B4", CellValue.vStr "e2"), ("B5", CellValue.vStr "e3"),
     ("B6", CellValue.vStr "e4"), ("B7", CellValue.vStr "e5")]
    ⟨"english", "B", "A", "C", 3⟩ (by decide) (by decide)).2
  rw [h]
  decide

/-! ## Claims C1 and C10 — anchor grouping and variant soundness -/

theorem rowHasLabel_weaken {kv : String × CellValue}
    {rest : List (String × CellValue)} {row : Nat} {lab : String}
    (h : rowHasLabel rest row lab) : rowHasLabel (kv :: rest) row lab := by
  rcases h with ⟨ref, s, col, hm, hsplit, hlab⟩
  exact ⟨ref, s, col, List.mem_cons_of_mem _ hm, hsplit, hlab⟩

/-- Soundness of the English inner scan: a recorded date (resp. time)
column is either inherited from the accumulator or witnessed by a `date`
(resp. `time`) label cell on the scanned row. -/
theorem innerScanEnglish_sound (row : Nat) :
    ∀ (l : List (String × CellValue)) (acc res : Option String × Option String),
      innerScanEnglish row l acc = some res →
      (res.1 = acc.1 ∨ rowHasLabel l row "date") ∧
      (res.2 = acc.2 ∨ rowHasLabel l row "time") := by
  intro l
  induction l with
  | nil =>
    intro acc res h
    have h' : some acc = some res := h
    cases Option.some.inj h'
    exact ⟨Or.inl rfl, Or.inl rfl⟩
  | cons kv rest ih =>
    intro acc res h
    obtain ⟨ref, v⟩ := kv
    cases v with
    | vInt n =>
      have h' : innerScanEnglish row rest acc = some res := h
      rcases ih acc res h' with ⟨h1, h2⟩
      exact ⟨h1.imp id rowHasLabel_weaken, h2.imp id rowHasLabel_weaken⟩
    | vStr s =>
      simp only [innerScanEnglish] at h
      split at h
      · exact absurd h (by simp)
      · next ocol orow heq =>
        split at h
        · next ho =>
          split at h
          · next hd =>
            rcases ih _ res h with ⟨_, h2⟩
            exact ⟨Or.inr ⟨ref, s, ocol, List.mem_cons_self _ _, by rw [heq, ho], hd⟩,
              h2.imp id rowHasLabel_weaken⟩
          · split at h
            · next ht =>
              rcases ih _ res h with ⟨h1, _⟩
              exact ⟨h1.imp id rowHasLabel_weaken,
                Or.inr ⟨ref, s, ocol, List.mem_cons_self _ _, by rw [heq, ho], ht⟩⟩
            · rcases ih _ res h with ⟨h1, h2⟩
              exact ⟨h1.imp id rowHasLabel_weaken, h2.imp id rowHasLabel_weaken⟩
        · rcases ih _ res h with ⟨h1, h2⟩
          exact ⟨h1.imp id rowHasLabel_weaken, h2.imp id rowHasLabel_weaken⟩

/-- Soundness of the Spanish inner scan: a recorded hours (resp. event)
column is inherited or witnessed by an `hrs`/`time` (resp. `event`) label
cell on the scanned row. -/
theorem innerScanSpanish_sound (row : Nat) :
    ∀ (l : List (String × CellValue)) (acc res : Option String × Option String),
      innerScanSpanish row l acc = some res →
      (res.1 = acc.1 ∨ rowHasLabel l row "hrs" ∨ rowHasLabel l row "time") ∧
      (res.2 = acc.2 ∨ rowHasLabel l row "event") := by
  intro l
  induction l with
  | nil =>
    intro acc res h
    have h' : some acc = some res := h
    cases Option.some.inj h'
    exact ⟨Or.inl rfl, Or.inl rfl⟩
  | cons kv rest ih =>
    intro acc res h
    obtain ⟨ref, v⟩ := kv
    cases v with
    | vInt n =>
      have h' : innerScanSpanish row rest acc = some res := h
      rcases ih acc res h' with ⟨h1, h2⟩
      exact ⟨h1.imp id (Or.imp rowHasLabel_weaken rowHasLabel_weaken),
        h2.imp id rowHasLabel_weaken⟩
    | vStr s =>
      simp only [innerScanSpanish] at h
      split at h
      · exact absurd h (by simp)
      · next ocol orow heq =>
        split at h
        · next ho =>
          split at h
          · next hht =>
            rcases ih _ res h with ⟨_, h2⟩
            refine ⟨Or.inr (hht.imp ?_ ?_), h2.imp id rowHasLabel_weaken⟩ <;>
              exact fun hx => ⟨ref, s, ocol, List.mem_cons_self _ _, by rw [heq, ho], hx⟩
          · split at h
            · next hev =>
              rcases ih _ res h with ⟨h1, _⟩
              exact ⟨h1.imp id (Or.imp rowHasLabel_weaken rowHasLabel_weaken),
                Or.inr ⟨ref, s, ocol, List.mem_cons_self _ _, by rw [heq, ho], hev⟩⟩
            · rcases ih _ res h with ⟨h1, h2⟩
              exact ⟨h1.imp id (Or.imp rowHasLabel_weaken rowHasLabel_weaken),
                h2.imp id rowHasLabel_weaken⟩
        · rcases ih _ res h with ⟨h1, h2⟩
          exact ⟨h1.imp id (Or.imp rowHasLabel_weaken rowHasLabel_weaken),
            h2.imp id rowHasLabel_weaken⟩

/-- Soundness of one step of the header scan: a section appended by the
step comes from a header row fully satisfying its own variant's role set. -/
theorem headerStep_sound (data : Grid) (acc : List SectionHeader)
    (kv : String × CellValue) (hkv : kv ∈ data) (acc' : List SectionHeader)
    (h : headerStep data acc kv = some acc') :
    ∀ sec ∈ acc', sec ∈ acc ∨ sectionOK data sec := by
  obtain ⟨ref, v⟩ := kv
  cases v with
  | vInt n =>
    have h' : some acc = some acc' := h
    cases Option.some.inj h'
    exact fun sec hs => Or.inl hs
  | vStr s =>
    simp only [headerStep] at h
    split at h
    · -- English trigger
      next he =>
      split at h
      · exact absurd h (by simp)
      · next colE row heq =>
        split at h
        · exact absurd h (by simp)
        · next cd ct hscan =>
          cases Option.some.inj h
          intro sec hs
          rcases List.mem_append.mp hs with hs | hs
          · exact Or.inl hs
          · rcases List.mem_singleton.mp hs with rfl
            right
            refine ⟨by simp, Or.inl ⟨rfl, ?_⟩⟩
            simp only [Nat.add_sub_cancel]
            refine ⟨⟨ref, s, colE, hkv, heq, he⟩, ?_, ?_⟩
            · rcases (innerScanEnglish_sound row data (none, none) _ hscan).1 with h1 | h1
              · simp at h1
              · exact h1
            · rcases (innerScanEnglish_sound row data (none, none) _ hscan).2 with h2 | h2
              · simp at h2
              · exact h2
        · -- incomplete English group: nothing appended
          cases Option.some.inj h
          exact fun sec hs => Or.inl hs
    · -- Spanish trigger or no trigger
      split at h
      · next hdA =>
        split at h
        · exact absurd h (by simp)
        · next colD row heq =>
          split at h
          · exact absurd h (by simp)
          · next ct ce hscan =>
            cases Option.some.inj h
            intro sec hs
            rcases List.mem_append.mp hs with hs | hs
            · exact Or.inl hs
            · rcases List.mem_singleton.mp hs with rfl
              right
              refine ⟨by simp, Or.inr ⟨rfl, ?_⟩⟩
              simp only [Nat.add_sub_cancel]
              refine ⟨⟨ref, s, colD, hkv, heq, hdA.1, hdA.2⟩, ?_, ?_⟩
              · rcases (innerScanSpanish_sound row data (none, none) _ hscan).1 with h1 | h1
                · simp at h1
                · exact h1
              · rcases (innerScanSpanish_sound row data (none, none) _ hscan).2 with h2 | h2
                · simp at h2
                · exact h2
          · cases Option.some.inj h
            exact fun sec hs => Or.inl hs
      · cases Option.some.inj h
        exact fun sec hs => Or.inl hs

theorem findHeadersGo_sound (data : Grid) :
    ∀ (l : List (String × CellValue)) (acc out : List SectionHeader),
      (∀ kv ∈ l, kv ∈ data) → findHeadersGo data l acc = some out →
      ∀ sec ∈ out, sec ∈ acc ∨ sectionOK data sec := by
  intro l
  induction l with
  | nil =>
    intro acc out _ h
    have h' : some acc = some out := h
    cases Option.some.inj h'
    exact fun sec hs => Or.inl hs
  | cons kv rest ih =>
    intro acc out hsub h
    simp only [findHeadersGo] at h
    cases hstep : headerStep data acc kv with
    | none => rw [hstep] at h; cases h
    | some acc2 =>
      rw [hstep] at h
      intro sec hs
      rcases ih acc2 out (fun x hx => hsub x (List.mem_cons_of_mem _ hx)) h sec hs with
        hmem | hok
      · exact headerStep_sound data acc kv (hsub kv (List.mem_cons_self _ _)) acc2 hstep
          sec hmem
      · exact Or.inr hok

/-- **C1, counterexample.**  The claim says no single header row yields
descriptors of both variants.  The row `A5="Date"`, `B5="Time"`, `C5="Event"`
fully satisfies the English role set, and also the Spanish one because the
code accepts `time` in place of `hrs`; the scan emits one Spanish and one
English descriptor from this single row. -/
theorem both_variants_from_one_row :
    find_timesheet_headers
        [("A5", CellValue.vStr "Date"), ("B5", CellValue.vStr "Time"),
         ("C5", CellValue.vStr "Event")] =
      some [⟨"spanish", "C", "A", "B", 6⟩, ⟨"english", "C", "A", "B", 6⟩] ∧
    ("spanish" : String) ≠ "english" ∧
    (⟨"spanish", "C", "A", "B", 6⟩ : SectionHeader).start_row =
      (⟨"english", "C", "A", "B", 6⟩ : SectionHeader).start_row := by
  refine ⟨by decide, by decide, rfl⟩

/-- Soundness of the full header search: every emitted section's header row
satisfies its variant's role set. -/
theorem findHeaders_sectionOK (data : Grid) (secs : List SectionHeader)
    (h : find_timesheet_headers data = some secs) :
    ∀ sec ∈ secs, sectionOK data sec := by
  intro sec hs
  rcases findHeadersGo_sound data data [] secs (fun _ hx => hx) h sec hs with hmem | hok
  · cases hmem
  · exact hok

/-- **C1, amended.**  Anchor grouping is variant-sound but not
variant-exclusive: every descriptor produced by the header search comes from
a header row that fully satisfies its own variant's role set (English
Event/Date/Time, or Spanish Date-in-column-A/HRS-or-Time/Event, since the
code accepts `time` for the hours role); a row satisfying both role sets
yields descriptors of both variants. -/
theorem find_timesheet_headers_sound (data : Grid) (secs : List SectionHeader)
    (h : find_timesheet_headers data = some secs) :
    ∀ sec ∈ secs, sectionOK data sec :=
  findHeaders_sectionOK data secs h

/-- **C1, witness.**  Soundness applied to a concrete English-only sheet. -/
theorem find_timesheet_headers_sound_witness :
    sectionOK
      [("B7", CellValue.vStr "Event"), ("C7", CellValue.vStr "Date"),
       ("D7", CellValue.vStr "Time")]
      ⟨"english", "B", "C", "D", 8⟩ :=
  find_timesheet_headers_sound
    [("B7", CellValue.vStr "Event"), ("C7", CellValue.vStr "Date"),
     ("D7", CellValue.vStr "Time")]
    [⟨"english", "B", "C", "D", 8⟩] (by decide)
    ⟨"english", "B", "C", "D", 8⟩ (by simp)

/-- **C10, theorem.**  Every Spanish descriptor is triggered by a `date`
label cell whose reference starts with `'A'` (so a `date`/`hrs`/`event` row
whose date cell sits in any other single-letter column produces no Spanish
descriptor), while the English pattern carries no column restriction: an
`Event`/`Date`/`Time` row with the date in column `C` still produces its
English descriptor, and the same Spanish labels with the date in column `B`
produce nothing. -/
theorem spanish_requires_column_A (data : Grid) (secs : List SectionHeader)
    (h : find_timesheet_headers data = some secs) :
    (∀ sec ∈ secs, sec.format = "spanish" →
      ∃ ref s col, (ref, CellValue.vStr s) ∈ data ∧
        split_cell_reference ref = some (col, sec.start_row - 1) ∧
        cleanLow s = "date" ∧ pyStartsWith ref "A" = true) ∧
    find_timesheet_headers
        [("B7", CellValue.vStr "Event"), ("C7", CellValue.vStr "Date"),
         ("D7", CellValue.vStr "Time")] =
      some [⟨"english", "B", "C", "D", 8⟩] ∧
    find_timesheet_headers
        [("B5", CellValue.vStr "Date"), ("C5", CellValue.vStr "HRS"),
         ("D5", CellValue.vStr "Event")] =
      some [] := by
  refine ⟨?_, by decide, by decide⟩
  intro sec hs hfmt
  rcases (findHeaders_sectionOK data secs h sec hs).2 with ⟨hen, _⟩ | ⟨_, hsp⟩
  · exact absurd (hfmt ▸ hen) (by decide)
  · exact hsp.1

/-- **C10, witness.**  The Spanish trigger extracted from a concrete
Spanish sheet whose `date` label sits in column `A`. -/
theorem spanish_requires_column_A_witness :
    ∃ ref s col,
      (ref, CellValue.vStr s) ∈
        ([("A5", CellValue.vStr "Date"), ("B5", CellValue.vStr "Hrs"),
          ("C5", CellValue.vStr "Event")] : Grid) ∧
      split_cell_reference ref = some (col, 5) ∧
      cleanLow s = "date" ∧ pyStartsWith ref "A" = true := by
  have h := (spanish_requires_column_A
      [("A5", CellValue.vStr "Date"), ("B5", CellValue.vStr "Hrs"),
       ("C5", CellValue.vStr "Event")]
      [⟨"spanish", "C", "A", "B", 6⟩] (by decide)).1
    ⟨"spanish", "C", "A", "B", 6⟩ (by simp) rfl
  simpa using h

end Tauro
